import Mathlib

/-!
Verification of the sequential pipeline engine in
`online_retail_sales/pipeline/base.py` and the config-driven assembler in
`online_retail_sales/helpers/utils.py`.

Python objects live on a heap and `PipelineBuilder.build` passes the
builder's own `steps` list to the `Pipeline` constructor, so builder and
pipeline can alias the same list object.  We therefore embed the code over
an explicit store mapping references to entry lists.  Data values threaded
through the pipeline are `Option α` (Python `None` is `none`); a step's
transformation may fail with an error of type `ε` (a raised exception),
modelled with `Except`.  The observability side channel (the
`print(f"Executing step: ...")` line in `PipelineStep.execute`) is modelled
as an explicit log of step names, threaded through execution.
-/

namespace PipelineCore

/-- Keyword-argument mappings (Python `**kwargs` dicts): association lists
from string keys to values of type `κ`.  The engine passes them verbatim. -/
abbrev Kwargs (κ : Type) := List (String × κ)

/-- Embedding of `PipelineStep` (base.py lines 6-36): a name fixed at
construction and the abstract transformation `function`, which takes the
current data value (possibly `None`) and the kwargs, and either returns a
new data value or raises an error. -/
structure PipelineStep (α κ ε : Type) where
  name : String
  function : Option α → Kwargs κ → Except ε (Option α)

/-- A pipeline entry: the `(step, kwargs)` pair appended by `add_step`. -/
abbrev Entry (α κ ε : Type) := PipelineStep α κ ε × Kwargs κ

/-- The heap of Python list objects holding pipeline entries: a map from
references (allocation indices) to list contents, plus the next fresh
reference. -/
structure Store (α κ ε : Type) where
  heap : Nat → List (Entry α κ ε)
  next : Nat

/-- The empty heap. -/
def Store.empty {α κ ε : Type} : Store α κ ε := ⟨fun _ => [], 0⟩

/-- Overwrite the list object at reference `r`. -/
def Store.update {α κ ε : Type} (s : Store α κ ε) (r : Nat)
    (v : List (Entry α κ ε)) : Store α κ ε :=
  ⟨fun i => if i = r then v else s.heap i, s.next⟩

/-- Embedding of `PipelineStep.execute` (base.py lines 28-36): print the
step's name (append it to the log), then call `self.function(data, **kwargs)`
with exactly the data and kwargs given. -/
def PipelineStep.execute {α κ ε : Type} (s : PipelineStep α κ ε)
    (data : Option α) (kwargs : Kwargs κ) (log : List String) :
    List String × Except ε (Option α) :=
  (log ++ [s.name], s.function data kwargs)

/-- Models a call `step.execute(**kwargs)` that omits the `data` argument:
base.py line 28 defaults `data` to `None`. -/
def PipelineStep.executeNoArg {α κ ε : Type} (s : PipelineStep α κ ε)
    (kwargs : Kwargs κ) (log : List String) :
    List String × Except ε (Option α) :=
  s.execute none kwargs log

/-- Embedding of the loop body of `Pipeline.execute` (base.py lines 58-61):
`for step, kwargs in steps: data = step.execute(data, **kwargs)`.  A raised
error aborts the loop and propagates; the log records each step name
printed by `PipelineStep.execute` before its function ran. -/
def runEntries {α κ ε : Type} :
    List (Entry α κ ε) → Option α → List String →
    List String × Except ε (Option α)
  | [], data, log => (log, .ok data)
  | (step, kwargs) :: rest, data, log =>
    let r := step.execute data kwargs log
    match r.2 with
    | .error e => (r.1, .error e)
    | .ok d => runEntries rest d r.1

/-- Embedding of `Pipeline` (base.py lines 39-61): holds a reference to the
list object passed to its constructor. -/
structure Pipeline where
  ref : Nat

/-- Embedding of `PipelineBuilder` (base.py lines 65-91): holds the
reference to its own `steps` list object. -/
structure PipelineBuilder where
  ref : Nat

/-- Embedding of `PipelineBuilder()` (base.py lines 69-73): allocate a
fresh empty list on the heap. -/
def newBuilder {α κ ε : Type} (s : Store α κ ε) :
    Store α κ ε × PipelineBuilder :=
  (⟨fun i => if i = s.next then [] else s.heap i, s.next + 1⟩, ⟨s.next⟩)

/-- Embedding of `PipelineBuilder.add_step` (base.py lines 75-83):
`self.steps.append((step, kwargs)); return self`.  The list object at the
builder's reference grows by one entry at the end and the same builder is
returned to enable chaining. -/
def PipelineBuilder.add_step {α κ ε : Type} (b : PipelineBuilder)
    (s : Store α κ ε) (step : PipelineStep α κ ε) (kwargs : Kwargs κ) :
    Store α κ ε × PipelineBuilder :=
  (s.update b.ref (s.heap b.ref ++ [(step, kwargs)]), b)

/-- Embedding of `PipelineBuilder.build` (base.py lines 85-91):
`return Pipeline(self.steps)`.  The Pipeline receives the builder's own
list object, i.e. the same reference — no copy is made. -/
def PipelineBuilder.build (b : PipelineBuilder) : Pipeline :=
  ⟨b.ref⟩

/-- Embedding of `Pipeline.execute` (base.py lines 51-61): fold the entry
list held at the pipeline's reference over the initial data, starting from
an empty log. -/
def Pipeline.execute {α κ ε : Type} (p : Pipeline) (s : Store α κ ε)
    (initial_data : Option α) : List String × Except ε (Option α) :=
  runEntries (s.heap p.ref) initial_data []

/-- Models a call `pipeline.execute()` that omits the `initial_data`
argument: base.py line 51 defaults it to `None`. -/
def Pipeline.executeNoArg {α κ ε : Type} (p : Pipeline) (s : Store α κ ε) :
    List String × Except ε (Option α) :=
  p.execute s none

/-- Sequence of `add_step` calls, threading store and builder. -/
def addAll {α κ ε : Type} :
    Store α κ ε → PipelineBuilder → List (Entry α κ ε) →
    Store α κ ε × PipelineBuilder
  | s, b, [] => (s, b)
  | s, b, e :: rest =>
    let r := b.add_step s e.1 e.2
    addAll r.1 r.2 rest

/-- The spec's statement of the execution algorithm, written from the
spec's words: "set `current = initial_data`; for each `(step, kwargs)` in
insertion order, set `current = step.execute(current, **kwargs)`; after
the last entry, return `current`", with the first failure aborting the run.
Used as the reference fold that a built pipeline is compared against. -/
def specFold {α κ ε : Type} (entries : List (Entry α κ ε))
    (initial : Option α) : List String × Except ε (Option α) :=
  entries.foldl
    (fun acc e =>
      match acc.2 with
      | .error _ => acc
      | .ok cur =>
        match e.1.function cur e.2 with
        | .error err => (acc.1 ++ [e.1.name], .error err)
        | .ok nxt => (acc.1 ++ [e.1.name], .ok nxt))
    ([], .ok initial)

/-- Embedding of a configuration step descriptor (utils.py lines 29-31):
`step['class']` and the optional `step.get('kwargs', {})`. -/
structure Descriptor (κ : Type) where
  className : String
  kwargs : Option (Kwargs κ)

/-- Errors escaping `execute_pipeline`: either the `AttributeError` raised
by `getattr` on an unknown class name, or an error raised by a step. -/
inductive PipeError (ε : Type) where
  | attributeError (name : String)
  | stepError (e : ε)
deriving DecidableEq

/-- Embedding of the descriptor loop of `execute_pipeline` (utils.py lines
29-35): for each descriptor in order, look up the class in the module
namespace (an `AttributeError` aborts the loop), construct the step with no
arguments, and `add_step` it with the descriptor's kwargs (absent kwargs
means the empty mapping). -/
def assembleLoop {α κ ε : Type}
    (m : String → Option (Unit → PipelineStep α κ ε)) :
    List (Descriptor κ) → Store α κ ε → PipelineBuilder →
    Except String (Store α κ ε × PipelineBuilder)
  | [], s, b => .ok (s, b)
  | d :: rest, s, b =>
    match m d.className with
    | none => .error d.className
    | some ctor =>
      let r := b.add_step s (ctor ()) (d.kwargs.getD [])
      assembleLoop m rest r.1 r.2

/-- Lift a pipeline result into the assembler's error type. -/
def liftRes {α ε : Type} (r : List String × Except ε (Option α)) :
    List String × Except (PipeError ε) (Option α) :=
  (r.1, r.2.mapError PipeError.stepError)

/-- Embedding of `execute_pipeline` (utils.py lines 24-40): create a fresh
`PipelineBuilder`, run the descriptor loop, then `build()` and `execute()`
with no initial data, returning the final value.  The module namespace is a
partial map from class names to no-argument constructors. -/
def execute_pipeline {α κ ε : Type}
    (m : String → Option (Unit → PipelineStep α κ ε))
    (config_section : List (Descriptor κ)) :
    List String × Except (PipeError ε) (Option α) :=
  let nb := newBuilder (Store.empty : Store α κ ε)
  match assembleLoop m config_section nb.1 nb.2 with
  | .error n => ([], .error (.attributeError n))
  | .ok (s, b) => liftRes ((b.build).execute s none)

/-- Resolution of a whole configuration section: `some l` when every class
name resolves, in which case `l` is the in-order list of
`(constructed step, kwargs-or-empty)` entries. -/
def resolvedAll {α κ ε : Type}
    (m : String → Option (Unit → PipelineStep α κ ε)) :
    List (Descriptor κ) → Option (List (Entry α κ ε))
  | [] => some []
  | d :: rest =>
    match m d.className with
    | none => none
    | some ctor =>
      (resolvedAll m rest).map (fun l => (ctor (), d.kwargs.getD []) :: l)

/-! ### Basic lemmas about execution and the builder heap -/

/-- The log parameter of `runEntries` is a pure accumulator: running with
any starting log prepends that log to the run from the empty log. -/
theorem runEntries_log_acc {α κ ε : Type} (l : List (Entry α κ ε)) :
    ∀ (d : Option α) (g : List String),
      runEntries l d g =
        (g ++ (runEntries l d []).1, (runEntries l d []).2) := by
  induction l with
  | nil => intro d g; simp [runEntries]
  | cons e rest ih =>
    intro d g
    obtain ⟨step, kwargs⟩ := e
    simp only [runEntries, PipelineStep.execute]
    cases h : step.function d kwargs with
    | error er => simp
    | ok d' =>
      simp only
      rw [ih d' (g ++ [step.name]), ih d' ([] ++ [step.name])]
      simp

/-- Splitting a run over an appended entry list: the suffix runs only if
the prefix succeeded, continuing from the prefix's data and log. -/
theorem runEntries_append {α κ ε : Type} (l1 l2 : List (Entry α κ ε)) :
    ∀ (d : Option α) (g : List String),
      runEntries (l1 ++ l2) d g =
        match runEntries l1 d g with
        | (g', .ok d') => runEntries l2 d' g'
        | (g', .error e) => (g', .error e) := by
  induction l1 with
  | nil => intro d g; simp [runEntries]
  | cons e rest ih =>
    intro d g
    obtain ⟨step, kwargs⟩ := e
    simp only [List.cons_append, runEntries, PipelineStep.execute]
    cases h : step.function d kwargs with
    | error er => simp
    | ok d' => simp only; exact ih d' (g ++ [step.name])

/-- `addAll` returns the same builder it was given. -/
theorem addAll_snd {α κ ε : Type} (l : List (Entry α κ ε)) :
    ∀ (s : Store α κ ε) (b : PipelineBuilder), (addAll s b l).2 = b := by
  induction l with
  | nil => intro s b; rfl
  | cons e rest ih => intro s b; exact ih _ b

/-- `addAll` appends the given entries to the list object at the builder's
reference. -/
theorem addAll_heap_self {α κ ε : Type} (l : List (Entry α κ ε)) :
    ∀ (s : Store α κ ε) (b : PipelineBuilder),
      (addAll s b l).1.heap b.ref = s.heap b.ref ++ l := by
  induction l with
  | nil => intro s b; simp [addAll]
  | cons e rest ih =>
    intro s b
    simp only [addAll, PipelineBuilder.add_step]
    rw [ih]
    simp [Store.update]

/-- `addAll` leaves every other list object on the heap unchanged. -/
theorem addAll_heap_other {α κ ε : Type} (l : List (Entry α κ ε)) :
    ∀ (s : Store α κ ε) (b : PipelineBuilder) (i : Nat), i ≠ b.ref →
      (addAll s b l).1.heap i = s.heap i := by
  induction l with
  | nil => intro s b i _; rfl
  | cons e rest ih =>
    intro s b i hi
    simp only [addAll, PipelineBuilder.add_step]
    rw [ih _ b i hi]
    simp [Store.update, hi]

/-- `specFold` never executes anything once the accumulator holds an
error. -/
theorem specFold_error_frozen {α κ ε : Type} (l : List (Entry α κ ε))
    (g : List String) (e : ε) :
    l.foldl
      (fun (acc : List String × Except ε (Option α)) en =>
        match acc.2 with
        | .error _ => acc
        | .ok cur =>
          match en.1.function cur en.2 with
          | .error err => (acc.1 ++ [en.1.name], .error err)
          | .ok nxt => (acc.1 ++ [en.1.name], .ok nxt))
      (g, .error e) = (g, .error e) := by
  induction l with
  | nil => rfl
  | cons en rest ih => simpa [List.foldl] using ih

/-- The generalized accumulator form of `specFold` agrees with
`runEntries`. -/
theorem specFold_eq_runEntries_acc {α κ ε : Type} (l : List (Entry α κ ε)) :
    ∀ (d : Option α) (g : List String),
      l.foldl
        (fun (acc : List String × Except ε (Option α)) en =>
          match acc.2 with
          | .error _ => acc
          | .ok cur =>
            match en.1.function cur en.2 with
            | .error err => (acc.1 ++ [en.1.name], .error err)
            | .ok nxt => (acc.1 ++ [en.1.name], .ok nxt))
        (g, .ok d) = runEntries l d g := by
  induction l with
  | nil => intro d g; simp [runEntries]
  | cons en rest ih =>
    intro d g
    simp only [List.foldl, runEntries, PipelineStep.execute]
    cases h : en.1.function d en.2 with
    | error er => simp [specFold_error_frozen]
    | ok d' => simp only; exact ih d' (g ++ [en.1.name])

/-- The spec's fold over an entry list is exactly `runEntries` from the
empty log. -/
theorem specFold_eq_runEntries {α κ ε : Type} (l : List (Entry α κ ε))
    (d : Option α) : specFold l d = runEntries l d [] :=
  specFold_eq_runEntries_acc l d []

/-- When every descriptor resolves, the assembler loop succeeds and is the
same as adding the resolved entries one by one to the builder. -/
theorem assembleLoop_resolved {α κ ε : Type}
    (m : String → Option (Unit → PipelineStep α κ ε))
    (config : List (Descriptor κ)) :
    ∀ (l : List (Entry α κ ε)) (s : Store α κ ε) (b : PipelineBuilder),
      resolvedAll m config = some l →
      assembleLoop m config s b = .ok ((addAll s b l).1, b) := by
  induction config with
  | nil =>
    intro l s b h
    simp only [resolvedAll, Option.some.injEq] at h
    subst h
    rfl
  | cons d rest ih =>
    intro l s b h
    simp only [resolvedAll] at h
    cases hm : m d.className with
    | none => rw [hm] at h; exact absurd h (by simp)
    | some ctor =>
      rw [hm] at h
      simp only [Option.map_eq_some'] at h
      obtain ⟨l', hl', hcons⟩ := h
      subst hcons
      simp only [assembleLoop, hm, addAll, PipelineBuilder.add_step]
      exact ih l' _ b hl'

/-- If every descriptor before `d` resolves and `d`'s class name does not,
the assembler loop aborts with `d`'s class name — whatever builder state it
had accumulated is discarded and no pipeline is ever executed. -/
theorem assembleLoop_first_missing {α κ ε : Type}
    (m : String → Option (Unit → PipelineStep α κ ε)) (d : Descriptor κ)
    (c2 : List (Descriptor κ)) (h2 : m d.className = none) :
    ∀ (c1 : List (Descriptor κ)), (∀ d' ∈ c1, (m d'.className).isSome) →
      ∀ (s : Store α κ ε) (b : PipelineBuilder),
        assembleLoop m (c1 ++ d :: c2) s b = .error d.className := by
  intro c1
  induction c1 with
  | nil => intro _ s b; simp [assembleLoop, h2]
  | cons d' rest ih =>
    intro h s b
    have hd' : (m d'.className).isSome := h d' (by simp)
    cases hm : m d'.className with
    | none => rw [hm] at hd'; exact absurd hd' (by simp)
    | some ctor =>
      simp only [List.cons_append, assembleLoop, hm]
      exact ih (fun x hx => h x (by simp [hx])) _ _

/-! ### Concrete steps and scenarios used by witnesses and counterexamples -/

/-- A step that ignores its input and produces the value `1`. -/
def stepA : PipelineStep Nat Unit String := ⟨"s1", fun _ _ => .ok (some 1)⟩

/-- A step that always fails, raising the error `"boom"`. -/
def stepBoom : PipelineStep Nat Unit String := ⟨"s2", fun _ _ => .error "boom"⟩

/-- A step that adds `10` to its input (treating `none` as `0`). -/
def stepC : PipelineStep Nat Unit String :=
  ⟨"s3", fun d _ => .ok (some (d.getD 0 + 10))⟩

/-- Fresh builder on an empty heap. -/
def c2Start : Store Nat Unit String × PipelineBuilder :=
  newBuilder Store.empty

/-- State after `add_step(stepA)` on the fresh builder. -/
def c2AfterAdd1 : Store Nat Unit String × PipelineBuilder :=
  c2Start.2.add_step c2Start.1 stepA []

/-- The pipeline built at this point: it holds the builder's list object. -/
def c2Pipe : Pipeline := c2AfterAdd1.2.build

/-- State after a further `add_step(stepC)` on the same builder, performed
after `c2Pipe` was built. -/
def c2AfterAdd2 : Store Nat Unit String × PipelineBuilder :=
  c2AfterAdd1.2.add_step c2AfterAdd1.1 stepC []

/-- A two-class module namespace for the assembler scenarios. -/
def wModule : String → Option (Unit → PipelineStep Nat Unit String) :=
  fun n =>
    if n = "StepA" then some (fun _ => stepA)
    else if n = "StepC" then some (fun _ => stepC)
    else none

/-! ### Claim theorems -/

/-- C1: for every built Pipeline and every initial data value (including
`none`), `Pipeline.execute` computes a left fold over the entries in
builder insertion order: starting from the initial data, each entry's step
is executed on the value produced by its immediate predecessor, in order,
with no reordering, deduplication, or skipping, and the final value is
returned (`specFold` is the spec's fold, written from the spec's words). -/
theorem claim_C1_execute_is_insertion_order_fold {α κ ε : Type}
    (s0 : Store α κ ε) (l : List (Entry α κ ε)) (x : Option α) :
    ((addAll (newBuilder s0).1 (newBuilder s0).2 l).2.build).execute
      (addAll (newBuilder s0).1 (newBuilder s0).2 l).1 x = specFold l x := by
  rw [specFold_eq_runEntries]
  simp only [Pipeline.execute, PipelineBuilder.build, addAll_snd]
  rw [addAll_heap_self]
  simp [newBuilder]

/-- C2 counterexample: the claim "a Pipeline built earlier executes exactly
the entries that were in the builder at the moment of its `build()` call,
regardless of later mutation of the builder" is false: `build()` passes the
builder's own list object to the Pipeline, so an `add_step` performed after
`build()` changes what the already-built pipeline executes.  Concretely,
the pipeline built when the builder held only `stepA` executes `stepA`
alone before the mutation, but executes `stepA` then `stepC` after it. -/
theorem claim_C2_counterexample :
    (c2Pipe.execute c2AfterAdd1.1 (none : Option Nat)).1 = ["s1"] ∧
    (c2Pipe.execute c2AfterAdd2.1 (none : Option Nat)).1 = ["s1", "s3"] :=
  ⟨rfl, rfl⟩

/-- C2 amended: `build()` hands the Pipeline the builder's own list object,
not a snapshot: after any further sequence of `add_step` calls on the
builder, the previously built pipeline executes the entries that were
present at build time followed by the later-added ones — i.e. the builder's
entries as of execution time, not as of build time. -/
theorem claim_C2_amended_build_shares_list {α κ ε : Type} (s : Store α κ ε)
    (b : PipelineBuilder) (l2 : List (Entry α κ ε)) (x : Option α) :
    (b.build).execute (addAll s b l2).1 x =
      runEntries (s.heap b.ref ++ l2) x [] := by
  simp only [Pipeline.execute, PipelineBuilder.build]
  rw [addAll_heap_self]

/-- C3: if the step at some position fails during `Pipeline.execute`, no
entry after that position is invoked (the log is exactly the prefix's log
plus the failing step's name), no partial result is returned (the outcome
is an error, not a value), and the error reaches the caller with its kind
unmodified (`.error e` for the very `e` the step raised). -/
theorem claim_C3_first_failure_aborts {α κ ε : Type}
    (l1 l2 : List (Entry α κ ε)) (f : PipelineStep α κ ε) (k : Kwargs κ)
    (x d : Option α) (e : ε) (g : List String)
    (h1 : runEntries l1 x [] = (g, .ok d))
    (h2 : f.function d k = .error e) :
    runEntries (l1 ++ (f, k) :: l2) x [] = (g ++ [f.name], .error e) := by
  rw [runEntries_append, h1]
  simp [runEntries, PipelineStep.execute, h2]

/-- C3 witness: a three-step pipeline whose second step raises `"boom"`:
the run logs only the first two step names (the third step is never
invoked) and surfaces exactly the raised error. -/
theorem claim_C3_witness :
    runEntries [(stepA, []), (stepBoom, []), (stepC, [])]
      (none : Option Nat) [] = (["s1", "s2"], Except.error "boom") :=
  claim_C3_first_failure_aborts [(stepA, [])] [(stepC, [])] stepBoom []
    none (some 1) "boom" ["s1"] rfl rfl

/-- C4: if some descriptor's class name is absent from the module
namespace (with every earlier descriptor resolving), `execute_pipeline`
fails with the resolution error naming that class, and the log of executed
steps is empty — no step's `execute` was invoked for any descriptor,
including those preceding the bad one. -/
theorem claim_C4_resolution_error_before_any_step {α κ ε : Type}
    (m : String → Option (Unit → PipelineStep α κ ε))
    (c1 : List (Descriptor κ)) (d : Descriptor κ) (c2 : List (Descriptor κ))
    (h1 : ∀ d' ∈ c1, (m d'.className).isSome)
    (h2 : m d.className = none) :
    execute_pipeline (α := α) m (c1 ++ d :: c2) =
      ([], .error (.attributeError d.className)) := by
  simp only [execute_pipeline]
  rw [assembleLoop_first_missing m d c2 h2 c1 h1]

/-- C4 witness: a section whose first descriptor resolves and whose second
names a missing class fails with the resolution error and an empty log. -/
theorem claim_C4_witness :
    execute_pipeline wModule [⟨"StepA", none⟩, ⟨"Missing", none⟩] =
      (([], .error (.attributeError "Missing")) :
        List String × Except (PipeError String) (Option Nat)) :=
  claim_C4_resolution_error_before_any_step wModule [⟨"StepA", none⟩]
    ⟨"Missing", none⟩ [] (by decide) rfl

/-- C5: executing a Pipeline built from a fresh (empty) builder returns
the initial data unchanged, for every initial value including `none`, with
no step executed — the empty pipeline is the identity, not an error. -/
theorem claim_C5_empty_pipeline_identity {α κ ε : Type} (s : Store α κ ε)
    (x : Option α) :
    (((newBuilder s).2.build).execute (newBuilder s).1 x :
      List String × Except ε (Option α)) = ([], .ok x) := by
  simp [Pipeline.execute, PipelineBuilder.build, newBuilder, runEntries]

/-- C6: when every class name of the configuration section resolves,
`execute_pipeline` constructs each step with no constructor arguments, in
descriptor order, pairing it with the descriptor's kwargs (absent kwargs
meaning the empty mapping), and its result is exactly that of building and
executing the resolved entry list with no initial data. -/
theorem claim_C6_assembler_happy_path {α κ ε : Type}
    (m : String → Option (Unit → PipelineStep α κ ε))
    (config : List (Descriptor κ)) (l : List (Entry α κ ε))
    (h : resolvedAll m config = some l) :
    execute_pipeline m config = liftRes (runEntries l none []) := by
  simp only [execute_pipeline]
  rw [assembleLoop_resolved m config l _ _ h]
  simp only [Pipeline.execute, PipelineBuilder.build]
  rw [addAll_heap_self]
  simp [newBuilder, Store.empty]

/-- C6 witness: a fully resolving two-descriptor section (the second with
explicit kwargs, the first with the kwargs field absent) runs both steps in
order and returns the final value. -/
theorem claim_C6_witness :
    execute_pipeline wModule [⟨"StepA", none⟩, ⟨"StepC", some [("k", ())]⟩] =
      ((["s1", "s3"], Except.ok (some 11)) :
        List String × Except (PipeError String) (Option Nat)) := by
  rw [claim_C6_assembler_happy_path wModule
    [⟨"StepA", none⟩, ⟨"StepC", some [("k", ())]⟩]
    [(stepA, []), (stepC, [("k", ())])] rfl]
  rfl

/-- C7: `PipelineStep.execute` is a thin wrapper: its result is exactly
`function(data, **kwargs)` on the same data and kwargs, and its only other
behaviour is appending the step's name to the observability log before the
invocation. -/
theorem claim_C7_execute_thin_wrapper {α κ ε : Type}
    (s : PipelineStep α κ ε) (d : Option α) (k : Kwargs κ)
    (g : List String) :
    (s.execute d k g).2 = s.function d k ∧
    (s.execute d k g).1 = g ++ [s.name] :=
  ⟨rfl, rfl⟩

/-- C8: `add_step` returns the same builder instance, appends exactly one
entry `(step, kwargs)` at the end of the builder's list, and chaining on
the returned builder is the same operation as a separate call on the
original builder, so built pipelines execute entries in insertion order
(it is a total function, so it never fails). -/
theorem claim_C8_add_step_appends_and_chains {α κ ε : Type}
    (s : Store α κ ε) (b : PipelineBuilder) (p q : PipelineStep α κ ε)
    (k1 k2 : Kwargs κ) :
    (b.add_step s p k1).2 = b ∧
    (b.add_step s p k1).1.heap b.ref = s.heap b.ref ++ [(p, k1)] ∧
    ((b.add_step s p k1).2.add_step (b.add_step s p k1).1 q k2 =
      b.add_step (b.add_step s p k1).1 q k2) ∧
    (∀ x : Option α,
      (((b.add_step s p k1).2.add_step (b.add_step s p k1).1 q k2).2.build).execute
        ((b.add_step s p k1).2.add_step (b.add_step s p k1).1 q k2).1 x =
      runEntries (s.heap b.ref ++ [(p, k1), (q, k2)]) x []) := by
  refine ⟨rfl, ?_, rfl, ?_⟩
  · simp [PipelineBuilder.add_step, Store.update]
  · intro x
    simp [PipelineBuilder.add_step, Store.update, PipelineBuilder.build,
      Pipeline.execute]

/-- C9: a fresh builder starts with an empty entry list, each `add_step`
grows the list by exactly one `(step, kwargs)` pair at the end, and the
pipeline produced by `build()` after any sequence of `add_step` calls holds
exactly the list of appended pairs — so `Pipeline.execute`'s per-entry
destructuring into `(step, kwargs)` meets only such pairs. -/
theorem claim_C9_builder_entry_invariant {α κ ε : Type} (s : Store α κ ε)
    (l : List (Entry α κ ε)) :
    (newBuilder s).1.heap (newBuilder s).2.ref = [] ∧
    (∀ (t : Store α κ ε) (b : PipelineBuilder) (p : PipelineStep α κ ε)
      (k : Kwargs κ),
      (b.add_step t p k).1.heap b.ref = t.heap b.ref ++ [(p, k)]) ∧
    (addAll (newBuilder s).1 (newBuilder s).2 l).1.heap
      ((addAll (newBuilder s).1 (newBuilder s).2 l).2.build).ref = l := by
  refine ⟨by simp [newBuilder], ?_, ?_⟩
  · intro t b p k
    simp [PipelineBuilder.add_step, Store.update]
  · simp only [PipelineBuilder.build, addAll_snd]
    rw [addAll_heap_self]
    simp [newBuilder]

/-- C10: both `data` in `PipelineStep.execute` and `initial_data` in
`Pipeline.execute` default to the absent value: a call omitting the
argument behaves as an explicit `none`; hence an empty pipeline run started
without initial data returns `none`, and the first step of a run started
without initial data receives exactly `none`. -/
theorem claim_C10_none_defaults {α κ ε : Type} (s : PipelineStep α κ ε)
    (k : Kwargs κ) (g : List String) (st : Store α κ ε) (p : Pipeline)
    (e : Entry α κ ε) (rest : List (Entry α κ ε)) (s0 : Store α κ ε) :
    (s.executeNoArg k g : List String × Except ε (Option α)) =
      s.execute none k g ∧
    p.executeNoArg st = p.execute st none ∧
    (((newBuilder s0).2.build).executeNoArg (newBuilder s0).1 :
      List String × Except ε (Option α)) = ([], .ok none) ∧
    runEntries (e :: rest) (none : Option α) [] =
      (match e.1.function none e.2 with
        | .error er => ([e.1.name], .error er)
        | .ok d => runEntries rest d [e.1.name]) := by
  refine ⟨rfl, rfl, ?_, ?_⟩
  · simp [Pipeline.executeNoArg, Pipeline.execute, PipelineBuilder.build,
      newBuilder, runEntries]
  · obtain ⟨f, k2⟩ := e
    simp only [runEntries, PipelineStep.execute]
    cases f.function none k2 <;> simp

end PipelineCore
